import Mathlib

/-
Formal model of the price catalog service in `src/app.py`.

The store is the sqlite table `prices (id TEXT PRIMARY KEY, data TEXT)`,
modelled as an association list from id to the decoded record.  The JSON
payload written in the `data` column round-trips all four record fields
exactly (Python's `json.dumps`/`json.loads` round-trip is exact for these
values), so the persisted form is modelled as the record itself.

Python strings are Lean `String`s; the built-in Python string operations
used by the code (`str.strip`, `str.lower`, `<` on strings, `float(...)`)
are modelled as executable functions over the underlying character list.
Python numbers (JSON ints and floats) are modelled as `ℚ`; `str()` of a
number is abstracted by `numRepr`, a concrete non-empty, whitespace-free
digit string, which is all the code ever relies on.

Each HTTP handler is a state-passing function `args → Store → resp × Store`.
sqlite3 transactional behavior is part of the model: `reset_prices` works
inside one implicit transaction (the DELETE opens it); if `normalize_row`
raises, the connection is closed in the `finally` block without `commit()`,
which rolls the transaction back, so the durable store is unchanged.
-/

/-- Raw JSON-ish value appearing in a request body or spreadsheet row:
string, number, boolean or null. -/
inductive Val where
  | vStr (s : String)
  | vNum (q : ℚ)
  | vBool (b : Bool)
  | vNull
deriving DecidableEq, Repr

open Val

/-- Raw input mapping (a Python dict), keys unique by construction of
the operations that build it. -/
abbrev RawRow := List (String × Val)

/-- Characters stripped by Python `str.strip()` (ASCII whitespace). -/
def isWS (c : Char) : Bool :=
  c = ' ' || c = '\t' || c = '\n' || c = '\r' || c = '\x0b' || c = '\x0c'

/-- Strip leading and trailing whitespace from a character list. -/
def trimList (l : List Char) : List Char :=
  ((l.dropWhile isWS).reverse.dropWhile isWS).reverse

/-- Model of Python `str.strip()`. -/
def strTrim (s : String) : String := String.mk (trimList s.data)

/-- ASCII lowercasing of one character, model of Python `str.lower()`
on the inputs of interest. -/
def charLower (c : Char) : Char :=
  if 'A' ≤ c && c ≤ 'Z' then Char.ofNat (c.toNat + 32) else c

/-- Model of Python `str.lower()`. -/
def strLower (s : String) : String := String.mk (s.data.map charLower)

/-- Lexicographic strict order on character lists by code point, the
order Python uses to compare strings. -/
def lexLt : List Char → List Char → Bool
  | [], [] => false
  | [], _ :: _ => true
  | _ :: _, [] => false
  | a :: as, b :: bs =>
      if a < b then true
      else if b < a then false
      else lexLt as bs

/-- Python string `<`. -/
def strLt (a b : String) : Bool := lexLt a.data b.data

/-- Decimal digits of a natural number, most significant first; `fuel`
bounds the recursion and `n + 1` fuel always suffices. -/
def natDigits (fuel n : Nat) (acc : List Char) : List Char :=
  match fuel with
  | 0 => acc
  | f + 1 =>
      let d := Char.ofNat (48 + n % 10)
      if n < 10 then d :: acc else natDigits f (n / 10) (d :: acc)

/-- Digit string of a natural number. -/
def natChars (n : Nat) : List Char := natDigits (n + 1) n []

/-- Digit string of an integer, with a leading minus sign if negative. -/
def intChars (i : Int) : List Char :=
  if i < 0 then '-' :: natChars i.natAbs else natChars i.natAbs

/-- Model of Python `str()` on a number.  The exact digits Python prints
are irrelevant to the code's behavior; the model only relies on the
result being a non-empty whitespace-free string, which holds by
construction. -/
def numRepr (q : ℚ) : String :=
  String.mk (intChars q.num ++ (if q.den = 1 then [] else '/' :: natChars q.den))

/-- Model of Python `str()` on a raw value. -/
def pyStr : Val → String
  | vStr s => s
  | vNum q => numRepr q
  | vBool b => if b then "True" else "False"
  | vNull => "None"

/-- True for an ASCII digit. -/
def isDigitCh (c : Char) : Bool := '0' ≤ c && c ≤ '9'

/-- Numeric value of a digit list, most significant first. -/
def digitsVal (l : List Char) : Nat :=
  l.foldl (fun a c => 10 * a + (c.toNat - 48)) 0

/-- Parse an unsigned decimal literal (`12`, `12.5`, `.5`, `5.`) into a
numerator/denominator pair; anything else fails.  Model of the core of
Python `float(str)`. -/
def parseUnsignedDec (l : List Char) : Option (Nat × Nat) :=
  match l.splitOn '.' with
  | [a] => if a ≠ [] && a.all isDigitCh then some (digitsVal a, 1) else none
  | [a, b] =>
      if (a ≠ [] || b ≠ []) && a.all isDigitCh && b.all isDigitCh then
        some (digitsVal a * 10 ^ b.length + digitsVal b, 10 ^ b.length)
      else none
  | _ => none

/-- Model of Python `float(str)`: strip whitespace, optional sign, then
an unsigned decimal literal.  (Exponent forms, `inf`/`nan` and digit
underscores, which Python also accepts, are outside the model; no claim
depends on them.) -/
def pyParseFloat (s : String) : Option ℚ :=
  match trimList s.data with
  | '-' :: rest => (parseUnsignedDec rest).map (fun p => mkRat (-(p.1 : Int)) p.2)
  | '+' :: rest => (parseUnsignedDec rest).map (fun p => mkRat p.1 p.2)
  | l => (parseUnsignedDec l).map (fun p => mkRat p.1 p.2)

/-- Model of Python `float(value)` on a raw value: numbers pass through,
booleans become 0 or 1, strings are parsed, `None` fails. -/
def pyFloat : Val → Option ℚ
  | vNum q => some q
  | vBool b => some (if b then 1 else 0)
  | vStr s => pyParseFloat s
  | vNull => none

/-- Python `dict.get(k, default)`. -/
def rowGet (row : RawRow) (k : String) (d : Val) : Val :=
  (List.lookup k row).getD d

/-- Python `dict` item assignment `row[k] = v`. -/
def rowSet (row : RawRow) (k : String) (v : Val) : RawRow :=
  match row with
  | [] => [(k, v)]
  | e :: rest => if e.1 = k then (k, v) :: rest else e :: rowSet rest k v

/-- `normalize_bool` from `src/app.py`: a bool passes through, `None` is
false, anything else is truthy iff its stripped lowercased string form
is one of `true`, `1`, `yes`, `y`, `sim`. -/
def normalize_bool : Val → Bool
  | vBool b => b
  | vNull => false
  | v => ["true", "1", "yes", "y", "sim"].contains (strLower (strTrim (pyStr v)))

/-- Canonical price record, the decoded form of one row of the `prices`
table. -/
structure PriceRec where
  sku : String
  key : String
  price : ℚ
  isActive : Bool
deriving DecidableEq, Repr

instance {α β : Type} [DecidableEq α] [DecidableEq β] : DecidableEq (Except α β) :=
  fun a b =>
    match a, b with
    | .error x, .error y =>
        if h : x = y then isTrue (h ▸ rfl) else isFalse (fun hc => h (Except.error.inj hc))
    | .ok x, .ok y =>
        if h : x = y then isTrue (h ▸ rfl) else isFalse (fun hc => h (Except.ok.inj hc))
    | .error _, .ok _ => isFalse (fun hc => Except.noConfusion hc)
    | .ok _, .error _ => isFalse (fun hc => Except.noConfusion hc)

/-- `normalize_row` from `src/app.py`.  Failure carries the message of
the raised `ValueError` (for the `float` failure the model uses a fixed
message prefix; only its distinctness matters). -/
def normalize_row (row : RawRow) : Except String PriceRec :=
  let sku := strTrim (pyStr (rowGet row "sku" (vStr "")))
  let key := strTrim (pyStr (rowGet row "key" (vStr "")))
  if sku = "" ∨ key = "" then .error "sku and key are required"
  else
    let priceV := rowGet row "price" vNull
    if priceV = vNull ∨ strTrim (pyStr priceV) = "" then .error "price is required"
    else
      match pyFloat priceV with
      | none => .error ("could not convert string to float: " ++ pyStr priceV)
      | some p =>
          .ok { sku := sku, key := key, price := p,
                isActive := normalize_bool (rowGet row "isActive" (vBool true)) }

/-- `make_id` from `src/app.py`: composite id `sku::key`. -/
def make_id (sku key : String) : String := sku ++ "::" ++ key

/-- The `prices` table: association list from id to the decoded record
(the JSON payload round-trips, see the header comment). -/
abbrev Store := List (String × PriceRec)

/-- sqlite `INSERT OR REPLACE INTO prices (id, data) VALUES (?, ?)`:
replace the row with this primary key if present, else insert. -/
def insertOrReplace (pid : String) (d : PriceRec) (st : Store) : Store :=
  match st with
  | [] => [(pid, d)]
  | e :: rest => if e.1 = pid then (pid, d) :: rest else e :: insertOrReplace pid d rest

/-- Strict lexicographic order on the Python sort key
`(x.get("sku",""), x.get("key",""))` used by `list_prices`. -/
def pairLt (a b : PriceRec) : Bool :=
  strLt a.sku b.sku || (a.sku == b.sku && strLt a.key b.key)

/-- Non-strict form of `pairLt`, the comparator realizing Python's
ascending stable sort. -/
def recLe (a b : PriceRec) : Bool := ! pairLt b a

/-- `list_prices` from `src/app.py` (GET `/prices`): decode every stored
row, sort ascending by `(sku, key)`, leave the store untouched. -/
def list_prices (st : Store) : List PriceRec × Store :=
  ((st.map Prod.snd).mergeSort recLe, st)

/-- Response of PUT `/prices/{sku}/{key}`: 200 with status/id/record on
success, or the `HTTPException(status_code=400, detail=...)` raised on a
`ValueError` from `normalize_row`. -/
inductive UpsertResp where
  | ok (pid : String) (price : PriceRec)
  | badRequest (detail : String)
deriving DecidableEq, Repr

/-- `upsert_price` from `src/app.py` (PUT `/prices/{sku}/{key}`): force
the path's sku and key into the payload, normalize (400 on failure, store
untouched), then INSERT OR REPLACE at `make_id sku key` and commit. -/
def upsert_price (sku key : String) (payload : RawRow) (st : Store) :
    UpsertResp × Store :=
  let payload2 := rowSet (rowSet payload "sku" (vStr sku)) "key" (vStr key)
  match normalize_row payload2 with
  | .error e => (.badRequest e, st)
  | .ok data =>
      let pid := make_id sku key
      (.ok pid data, insertOrReplace pid data st)

/-- Response of POST `/prices/reset`: 200 with the count on success; a
`ValueError` from `normalize_row` is NOT caught by this handler, so it
escapes to the framework, which turns an unhandled exception into an
HTTP 500 internal server error. -/
inductive ResetResp where
  | ok (count : Nat)
  | serverError (msg : String)
deriving DecidableEq, Repr

/-- HTTP status code of a reset response. -/
def ResetResp.status : ResetResp → Nat
  | .ok _ => 200
  | .serverError _ => 500

/-- Body of the reset transaction after the initial `DELETE FROM prices`:
normalize each item in order and INSERT OR REPLACE it into the
transaction's view of the table, failing on the first bad item. -/
def reset_apply : List RawRow → Store → Except String Store
  | [], tx => .ok tx
  | item :: rest, tx =>
      match normalize_row item with
      | .error e => .error e
      | .ok data => reset_apply rest (insertOrReplace (make_id data.sku data.key) data tx)

/-- `reset_prices` from `src/app.py` (POST `/prices/reset`): inside one
implicit transaction, DELETE all rows then insert each normalized item;
`commit()` only on success.  On a `ValueError` the `finally` block closes
the connection without committing, which rolls back the whole
transaction (including the DELETE), and the exception escapes as a 500. -/
def reset_prices (items : List RawRow) (st : Store) : ResetResp × Store :=
  match reset_apply items [] with
  | .ok tx => (.ok items.length, tx)
  | .error e => (.serverError e, st)

/-- Store well-formedness, maintained by every operation: ids are unique
(the primary key) and each row's id is `make_id` of its record's fields. -/
def WF (st : Store) : Prop :=
  (st.map Prod.fst).Nodup ∧ ∀ e ∈ st, e.1 = make_id e.2.sku e.2.key

/-! ### Order lemmas for the sort comparator -/

theorem char_eq_of_not_lt {x y : Char} (h1 : ¬ x < y) (h2 : ¬ y < x) : x = y :=
  le_antisymm (le_of_not_lt h2) (le_of_not_lt h1)

theorem lexLt_irrefl : ∀ l : List Char, lexLt l l = false := by
  intro l
  induction l with
  | nil => rfl
  | cons x xs ih => simp [lexLt, ih]

theorem lexLt_trans : ∀ a b c : List Char,
    lexLt a b = true → lexLt b c = true → lexLt a c = true := by
  intro a
  induction a with
  | nil =>
    intro b c hab hbc
    cases b with
    | nil => exact absurd hab (by simp [lexLt])
    | cons y bs =>
      cases c with
      | nil => exact absurd hbc (by simp [lexLt])
      | cons z cs => simp [lexLt]
  | cons x xs ih =>
    intro b c hab hbc
    cases b with
    | nil => exact absurd hab (by simp [lexLt])
    | cons y bs =>
      cases c with
      | nil => exact absurd hbc (by simp [lexLt])
      | cons z cs =>
        simp only [lexLt] at hab hbc ⊢
        by_cases hxy : x < y
        · by_cases hyz : y < z
          · simp [lt_trans hxy hyz]
          · rw [if_neg hyz] at hbc
            by_cases hzy : z < y
            · rw [if_pos hzy] at hbc; exact absurd hbc (by simp)
            · have : y = z := char_eq_of_not_lt hyz hzy
              subst this
              simp [hxy]
        · rw [if_neg hxy] at hab
          by_cases hyx : y < x
          · rw [if_pos hyx] at hab; exact absurd hab (by simp)
          · have hxyeq : x = y := char_eq_of_not_lt hxy hyx
            subst hxyeq
            rw [if_neg (lt_irrefl x)] at hab
            by_cases hyz : x < z
            · simp [hyz]
            · rw [if_neg hyz] at hbc ⊢
              by_cases hzy : z < x
              · rw [if_pos hzy] at hbc; exact absurd hbc (by simp)
              · rw [if_neg hzy] at hbc ⊢
                exact ih bs cs hab hbc

theorem lexLt_asymm : ∀ a b : List Char, lexLt a b = true → lexLt b a = false := by
  intro a
  induction a with
  | nil =>
    intro b hab
    cases b with
    | nil => exact absurd hab (by simp [lexLt])
    | cons y bs => simp [lexLt]
  | cons x xs ih =>
    intro b hab
    cases b with
    | nil => exact absurd hab (by simp [lexLt])
    | cons y bs =>
      simp only [lexLt] at hab ⊢
      by_cases hxy : x < y
      · have hyx : ¬ y < x := lt_asymm hxy
        simp [hxy, hyx]
      · rw [if_neg hxy] at hab
        by_cases hyx : y < x
        · rw [if_pos hyx] at hab; exact absurd hab (by simp)
        · rw [if_neg hyx] at hab
          simp [hxy, hyx, ih bs hab]

theorem lexLt_eq_of_not : ∀ a b : List Char,
    lexLt a b = false → lexLt b a = false → a = b := by
  intro a
  induction a with
  | nil =>
    intro b hab _
    cases b with
    | nil => rfl
    | cons y bs => exact absurd hab (by simp [lexLt])
  | cons x xs ih =>
    intro b hab hba
    cases b with
    | nil => exact absurd hba (by simp [lexLt])
    | cons y bs =>
      simp only [lexLt] at hab hba
      by_cases hxy : x < y
      · rw [if_pos hxy] at hab; exact absurd hab (by simp)
      · by_cases hyx : y < x
        · rw [if_pos hyx] at hba; exact absurd hba (by simp)
        · have hxyeq : x = y := char_eq_of_not_lt hxy hyx
          subst hxyeq
          rw [if_neg (lt_irrefl x), if_neg (lt_irrefl x)] at hab hba
          exact congrArg (x :: ·) (ih bs hab hba)

theorem strLt_irrefl (s : String) : strLt s s = false := lexLt_irrefl s.data

theorem strLt_trans {a b c : String} (h1 : strLt a b = true) (h2 : strLt b c = true) :
    strLt a c = true := lexLt_trans a.data b.data c.data h1 h2

theorem strLt_asymm {a b : String} (h : strLt a b = true) : strLt b a = false :=
  lexLt_asymm a.data b.data h

theorem strLt_eq_of_not {a b : String} (h1 : strLt a b = false) (h2 : strLt b a = false) :
    a = b := String.ext (lexLt_eq_of_not a.data b.data h1 h2)

theorem pairLt_iff {a b : PriceRec} : pairLt a b = true ↔
    strLt a.sku b.sku = true ∨ (a.sku = b.sku ∧ strLt a.key b.key = true) := by
  simp [pairLt, beq_iff_eq]

theorem pairLt_asymm {a b : PriceRec} (h : pairLt a b = true) : pairLt b a = false := by
  rcases pairLt_iff.mp h with hs | ⟨hs, hk⟩
  · rw [← Bool.not_eq_true]
    intro hba
    rcases pairLt_iff.mp hba with hs2 | ⟨hs2, _⟩
    · rw [strLt_asymm hs] at hs2; exact absurd hs2 (by simp)
    · rw [hs2] at hs; rw [strLt_irrefl] at hs; exact absurd hs (by simp)
  · rw [← Bool.not_eq_true]
    intro hba
    rcases pairLt_iff.mp hba with hs2 | ⟨_, hk2⟩
    · rw [hs] at hs2; rw [strLt_irrefl] at hs2; exact absurd hs2 (by simp)
    · rw [strLt_asymm hk] at hk2; exact absurd hk2 (by simp)

theorem pairLt_trans {a b c : PriceRec} (h1 : pairLt a b = true) (h2 : pairLt b c = true) :
    pairLt a c = true := by
  rcases pairLt_iff.mp h1 with hs1 | ⟨hs1, hk1⟩ <;> rcases pairLt_iff.mp h2 with hs2 | ⟨hs2, hk2⟩
  · exact pairLt_iff.mpr (Or.inl (strLt_trans hs1 hs2))
  · exact pairLt_iff.mpr (Or.inl (hs2 ▸ hs1))
  · exact pairLt_iff.mpr (Or.inl (hs1 ▸ hs2))
  · exact pairLt_iff.mpr (Or.inr ⟨hs1.trans hs2, strLt_trans hk1 hk2⟩)

theorem pairLt_keys_of_not {a b : PriceRec} (h1 : pairLt a b = false) (h2 : pairLt b a = false) :
    a.sku = b.sku ∧ a.key = b.key := by
  have h1' : ¬ (strLt a.sku b.sku = true ∨ (a.sku = b.sku ∧ strLt a.key b.key = true)) := by
    rw [← pairLt_iff]; simp [h1]
  have h2' : ¬ (strLt b.sku a.sku = true ∨ (b.sku = a.sku ∧ strLt b.key a.key = true)) := by
    rw [← pairLt_iff]; simp [h2]
  push_neg at h1' h2'
  have hsku : a.sku = b.sku := by
    apply strLt_eq_of_not
    · simpa using h1'.1
    · simpa using h2'.1
  refine ⟨hsku, strLt_eq_of_not ?_ ?_⟩
  · simpa using h1'.2 hsku
  · simpa using h2'.2 hsku.symm

theorem recLe_total : ∀ a b : PriceRec, (recLe a b || recLe b a) = true := by
  intro a b
  by_cases h : pairLt b a = true
  · have := pairLt_asymm h
    simp [recLe, this]
  · simp only [Bool.not_eq_true] at h
    simp [recLe, h]

theorem recLe_trans : ∀ a b c : PriceRec,
    recLe a b = true → recLe b c = true → recLe a c = true := by
  intro a b c hab hbc
  simp only [recLe, Bool.not_eq_true'] at hab hbc ⊢
  by_contra hca
  simp only [Bool.not_eq_false] at hca
  by_cases hcb : pairLt c b = true
  · rw [hcb] at hbc; exact absurd hbc (by simp)
  · simp only [Bool.not_eq_true] at hcb
    by_cases hbc2 : pairLt b c = true
    · have := pairLt_trans hbc2 hca
      rw [this] at hab; exact absurd hab (by simp)
    · simp only [Bool.not_eq_true] at hbc2
      have hkeys := pairLt_keys_of_not hbc2 hcb
      have : pairLt b a = true := by
        rcases pairLt_iff.mp hca with hs | ⟨hs, hk⟩
        · exact pairLt_iff.mpr (Or.inl (hkeys.1 ▸ hs))
        · exact pairLt_iff.mpr (Or.inr ⟨hkeys.1 ▸ hs, hkeys.2 ▸ hk⟩)
      rw [this] at hab; exact absurd hab (by simp)

/-! ### The string form of a number is non-empty and whitespace-free -/

theorem natDigits_ne_nil_of_acc : ∀ (f n : Nat) (acc : List Char),
    acc ≠ [] → natDigits f n acc ≠ [] := by
  intro f
  induction f with
  | zero => intro n acc h; simpa [natDigits] using h
  | succ f ih =>
    intro n acc h
    simp only [natDigits]
    by_cases hn : n < 10
    · simp [hn]
    · rw [if_neg hn]
      exact ih (n / 10) _ (by simp)

theorem natChars_ne_nil (n : Nat) : natChars n ≠ [] := by
  unfold natChars natDigits
  by_cases hn : n < 10
  · simp [hn]
  · rw [if_neg hn]
    exact natDigits_ne_nil_of_acc n (n / 10) _ (by simp)

theorem isWS_digit : ∀ m : Nat, m < 10 → isWS (Char.ofNat (48 + m)) = false := by
  intro m h
  interval_cases m <;> decide

theorem natDigits_nonws : ∀ (f n : Nat) (acc : List Char),
    (∀ c ∈ acc, isWS c = false) → ∀ c ∈ natDigits f n acc, isWS c = false := by
  intro f
  induction f with
  | zero => intro n acc hacc; simpa [natDigits] using hacc
  | succ f ih =>
    intro n acc hacc
    have hd : isWS (Char.ofNat (48 + n % 10)) = false :=
      isWS_digit (n % 10) (Nat.mod_lt n (by norm_num))
    simp only [natDigits]
    by_cases hn : n < 10
    · rw [if_pos hn]
      intro c hc
      rcases List.mem_cons.mp hc with rfl | hc
      · exact hd
      · exact hacc c hc
    · rw [if_neg hn]
      refine ih (n / 10) _ ?_
      intro c hc
      rcases List.mem_cons.mp hc with rfl | hc
      · exact hd
      · exact hacc c hc

theorem natChars_nonws (n : Nat) : ∀ c ∈ natChars n, isWS c = false :=
  natDigits_nonws (n + 1) n [] (by simp)

theorem intChars_ne_nil (i : Int) : intChars i ≠ [] := by
  unfold intChars
  by_cases h : i < 0
  · simp [h]
  · rw [if_neg h]; exact natChars_ne_nil _

theorem intChars_nonws (i : Int) : ∀ c ∈ intChars i, isWS c = false := by
  unfold intChars
  by_cases h : i < 0
  · rw [if_pos h]
    intro c hc
    rcases List.mem_cons.mp hc with rfl | hc
    · decide
    · exact natChars_nonws _ c hc
  · rw [if_neg h]; exact natChars_nonws _

theorem numRepr_data_ne_nil (q : ℚ) : (numRepr q).data ≠ [] := by
  unfold numRepr
  intro h
  exact intChars_ne_nil q.num (List.append_eq_nil.mp h).1

theorem numRepr_data_nonws (q : ℚ) : ∀ c ∈ (numRepr q).data, isWS c = false := by
  unfold numRepr
  intro c hc
  rcases List.mem_append.mp hc with hc | hc
  · exact intChars_nonws _ c hc
  · by_cases h : q.den = 1
    · rw [if_pos h] at hc; simp at hc
    · rw [if_neg h] at hc
      rcases List.mem_cons.mp hc with rfl | hc
      · decide
      · exact natChars_nonws _ c hc

theorem dropWhile_isWS_eq_self {l : List Char} (h : ∀ c ∈ l, isWS c = false) :
    l.dropWhile isWS = l := by
  cases l with
  | nil => rfl
  | cons x xs => simp [List.dropWhile, h x (List.mem_cons_self x xs)]

theorem trimList_eq_self {l : List Char} (h : ∀ c ∈ l, isWS c = false) : trimList l = l := by
  unfold trimList
  rw [dropWhile_isWS_eq_self h, dropWhile_isWS_eq_self (by intro c hc; exact h c (List.mem_reverse.mp hc)), List.reverse_reverse]

theorem strTrim_numRepr (q : ℚ) : strTrim (numRepr q) = numRepr q := by
  unfold strTrim
  rw [trimList_eq_self (numRepr_data_nonws q)]

theorem numRepr_ne_empty (q : ℚ) : numRepr q ≠ "" := by
  intro h
  exact numRepr_data_ne_nil q (congrArg String.data h)

/-! ### Lemmas about raw rows (Python dicts) -/

theorem rowGet_rowSet_self (row : RawRow) (k : String) (v d : Val) :
    rowGet (rowSet row k v) k d = v := by
  induction row with
  | nil => simp [rowGet, rowSet, List.lookup]
  | cons e rest ih =>
    obtain ⟨ek, ev⟩ := e
    by_cases h : ek = k
    · simp [rowSet, h, rowGet, List.lookup]
    · have hbe : (k == ek) = false := beq_eq_false_iff_ne.mpr (Ne.symm h)
      simp only [rowSet, if_neg h]
      simpa [rowGet, List.lookup, hbe] using ih

theorem rowGet_rowSet_ne (row : RawRow) {k k2 : String} (v d : Val) (h : k2 ≠ k) :
    rowGet (rowSet row k v) k2 d = rowGet row k2 d := by
  have hbe : (k2 == k) = false := beq_eq_false_iff_ne.mpr h
  induction row with
  | nil => simp [rowGet, rowSet, List.lookup, hbe]
  | cons e rest ih =>
    obtain ⟨ek, ev⟩ := e
    by_cases he : ek = k
    · subst he
      simp [rowSet, rowGet, List.lookup, hbe]
    · simp only [rowSet, if_neg he]
      by_cases he2 : k2 = ek
      · simp [rowGet, List.lookup, beq_iff_eq, he2]
      · have hbe2 : (k2 == ek) = false := beq_eq_false_iff_ne.mpr he2
        simpa [rowGet, List.lookup, hbe2] using ih

/-- A row access function sees only `rowGet`, so `normalize_row` is
determined by the `dict.get` view of the row. -/
theorem normalize_row_ext {row1 row2 : RawRow}
    (h : ∀ k d, rowGet row1 k d = rowGet row2 k d) :
    normalize_row row1 = normalize_row row2 := by
  simp only [normalize_row, h]

/-! ### Lemmas about the store and INSERT OR REPLACE -/

theorem lookup_insertOrReplace_ne (st : Store) {pid id2 : String} (d : PriceRec)
    (h : id2 ≠ pid) : List.lookup id2 (insertOrReplace pid d st) = List.lookup id2 st := by
  have hbe : (id2 == pid) = false := beq_eq_false_iff_ne.mpr h
  induction st with
  | nil => simp [insertOrReplace, List.lookup, hbe]
  | cons e rest ih =>
    obtain ⟨ek, ev⟩ := e
    by_cases he : ek = pid
    · subst he
      simp [insertOrReplace, List.lookup, hbe]
    · simp only [insertOrReplace, if_neg he]
      by_cases he2 : id2 = ek
      · simp [List.lookup, beq_iff_eq, he2]
      · have hbe2 : (id2 == ek) = false := beq_eq_false_iff_ne.mpr he2
        simpa [List.lookup, hbe2] using ih

theorem mem_insertOrReplace {st : Store} {pid : String} {d : PriceRec} {e : String × PriceRec}
    (h : e ∈ insertOrReplace pid d st) : e = (pid, d) ∨ e ∈ st := by
  induction st with
  | nil => simpa [insertOrReplace] using h
  | cons e0 rest ih =>
    by_cases h0 : e0.1 = pid
    · rw [insertOrReplace, if_pos h0] at h
      rcases List.mem_cons.mp h with rfl | h
      · exact Or.inl rfl
      · exact Or.inr (List.mem_cons_of_mem _ h)
    · rw [insertOrReplace, if_neg h0] at h
      rcases List.mem_cons.mp h with rfl | h
      · exact Or.inr (List.mem_cons_self _ _)
      · rcases ih h with h | h
        · exact Or.inl h
        · exact Or.inr (List.mem_cons_of_mem _ h)

theorem mem_keys_insertOrReplace {st : Store} {pid x : String} {d : PriceRec}
    (h : x ∈ (insertOrReplace pid d st).map Prod.fst) : x = pid ∨ x ∈ st.map Prod.fst := by
  rcases List.mem_map.mp h with ⟨e, he, rfl⟩
  rcases mem_insertOrReplace he with rfl | he2
  · exact Or.inl rfl
  · exact Or.inr (List.mem_map_of_mem Prod.fst he2)

theorem nodup_keys_insertOrReplace {st : Store} (pid : String) (d : PriceRec)
    (h : (st.map Prod.fst).Nodup) : ((insertOrReplace pid d st).map Prod.fst).Nodup := by
  induction st with
  | nil => simp [insertOrReplace]
  | cons e rest ih =>
    rw [List.map_cons, List.nodup_cons] at h
    by_cases h0 : e.1 = pid
    · rw [insertOrReplace, if_pos h0, List.map_cons, List.nodup_cons]
      exact ⟨h0 ▸ h.1, h.2⟩
    · rw [insertOrReplace, if_neg h0, List.map_cons, List.nodup_cons]
      refine ⟨?_, ih h.2⟩
      intro hmem
      rcases mem_keys_insertOrReplace hmem with h1 | h1
      · exact h0 h1
      · exact h.1 h1

theorem WF_insertOrReplace {st : Store} {d : PriceRec} (hwf : WF st) :
    WF (insertOrReplace (make_id d.sku d.key) d st) := by
  refine ⟨nodup_keys_insertOrReplace _ _ hwf.1, ?_⟩
  intro e he
  rcases mem_insertOrReplace he with rfl | he2
  · rfl
  · exact hwf.2 e he2

theorem filter_insertOrReplace (st : Store) (d : PriceRec)
    (hnd : (st.map Prod.fst).Nodup)
    (hids : ∀ e ∈ st, e.1 = make_id e.2.sku e.2.key) :
    ((insertOrReplace (make_id d.sku d.key) d st).map Prod.snd).filter
      (fun r => r.sku == d.sku && r.key == d.key) = [d] := by
  induction st with
  | nil => simp [insertOrReplace]
  | cons e rest ih =>
    rw [List.map_cons, List.nodup_cons] at hnd
    by_cases h0 : e.1 = make_id d.sku d.key
    · rw [insertOrReplace, if_pos h0, List.map_cons, List.filter_cons]
      have hd : (d.sku == d.sku && d.key == d.key) = true := by simp
      rw [if_pos hd]
      have hrest : (rest.map Prod.snd).filter (fun r => r.sku == d.sku && r.key == d.key) = [] := by
        rw [List.filter_eq_nil_iff]
        intro r hr
        rcases List.mem_map.mp hr with ⟨e2, he2, rfl⟩
        intro hmatch
        simp only [Bool.and_eq_true, beq_iff_eq] at hmatch
        have heq : e2.1 = make_id d.sku d.key := by
          rw [hids e2 (List.mem_cons_of_mem _ he2), hmatch.1, hmatch.2]
        have hmem : e2.1 ∈ rest.map Prod.fst := List.mem_map_of_mem Prod.fst he2
        rw [heq] at hmem
        exact hnd.1 (by rw [h0]; exact hmem)
      rw [hrest]
    · rw [insertOrReplace, if_neg h0, List.map_cons, List.filter_cons]
      have hne : (e.2.sku == d.sku && e.2.key == d.key) = false := by
        rw [Bool.and_eq_false_iff]
        by_contra hc
        push_neg at hc
        simp only [ne_eq, beq_eq_false_iff_ne, not_not] at hc
        exact h0 (by rw [hids e (List.mem_cons_self _ _), hc.1, hc.2])
      rw [if_neg (by simp [hne])]
      exact ih hnd.2 (fun e2 he2 => hids e2 (List.mem_cons_of_mem _ he2))

/-! ### Evaluation lemmas for `normalize_row` -/

/-- Condition of the first `ValueError` in `normalize_row`: `sku` or
`key` empty after string coercion and trim. -/
def skuKeyMissing (row : RawRow) : Prop :=
  strTrim (pyStr (rowGet row "sku" (vStr ""))) = "" ∨
    strTrim (pyStr (rowGet row "key" (vStr ""))) = ""

/-- Condition of the second `ValueError` in `normalize_row`: `price`
absent or `None`, or empty after string coercion and trim. -/
def priceMissing (row : RawRow) : Prop :=
  rowGet row "price" vNull = vNull ∨ strTrim (pyStr (rowGet row "price" vNull)) = ""

instance (row : RawRow) : Decidable (skuKeyMissing row) := by
  unfold skuKeyMissing; infer_instance

instance (row : RawRow) : Decidable (priceMissing row) := by
  unfold priceMissing; infer_instance

theorem normalize_row_of_skuKeyMissing {row : RawRow} (h : skuKeyMissing row) :
    normalize_row row = .error "sku and key are required" := by
  unfold skuKeyMissing at h
  simp only [normalize_row]
  rw [if_pos h]

theorem normalize_row_of_priceMissing {row : RawRow} (h1 : ¬ skuKeyMissing row)
    (h2 : priceMissing row) : normalize_row row = .error "price is required" := by
  unfold skuKeyMissing at h1
  unfold priceMissing at h2
  simp only [normalize_row]
  rw [if_neg h1, if_pos h2]

theorem normalize_row_of_float_none {row : RawRow} (h1 : ¬ skuKeyMissing row)
    (h2 : ¬ priceMissing row) (h3 : pyFloat (rowGet row "price" vNull) = none) :
    normalize_row row
      = .error ("could not convert string to float: " ++ pyStr (rowGet row "price" vNull)) := by
  unfold skuKeyMissing at h1
  unfold priceMissing at h2
  simp only [normalize_row]
  rw [if_neg h1, if_neg h2, h3]

theorem normalize_row_of_float_some {row : RawRow} {p : ℚ} (h1 : ¬ skuKeyMissing row)
    (h2 : ¬ priceMissing row) (h3 : pyFloat (rowGet row "price" vNull) = some p) :
    normalize_row row
      = .ok { sku := strTrim (pyStr (rowGet row "sku" (vStr ""))),
              key := strTrim (pyStr (rowGet row "key" (vStr ""))),
              price := p,
              isActive := normalize_bool (rowGet row "isActive" (vBool true)) } := by
  unfold skuKeyMissing at h1
  unfold priceMissing at h2
  simp only [normalize_row]
  rw [if_neg h1, if_neg h2, h3]

theorem normalize_row_ok_inv {row : RawRow} {d : PriceRec}
    (h : normalize_row row = .ok d) :
    d.sku = strTrim (pyStr (rowGet row "sku" (vStr ""))) ∧
    d.key = strTrim (pyStr (rowGet row "key" (vStr ""))) ∧
    pyFloat (rowGet row "price" vNull) = some d.price ∧
    d.isActive = normalize_bool (rowGet row "isActive" (vBool true)) := by
  by_cases h1 : skuKeyMissing row
  · rw [normalize_row_of_skuKeyMissing h1] at h; exact absurd h (by simp)
  by_cases h2 : priceMissing row
  · rw [normalize_row_of_priceMissing h1 h2] at h; exact absurd h (by simp)
  cases h3 : pyFloat (rowGet row "price" vNull) with
  | none => rw [normalize_row_of_float_none h1 h2 h3] at h; exact absurd h (by simp)
  | some p =>
    rw [normalize_row_of_float_some h1 h2 h3] at h
    injection h with h
    subst h
    refine ⟨rfl, rfl, ?_, rfl⟩
    simp [h3]

/-- The error messages coming out of the `float` parse failure differ
from the two fixed validation messages. -/
theorem float_msg_ne (s : String) :
    ("could not convert string to float: " ++ s) ≠ "sku and key are required" ∧
    ("could not convert string to float: " ++ s) ≠ "price is required" := by
  constructor
  · intro h
    have h2 := congrArg String.data h
    rw [String.data_append] at h2
    have h3 := congrArg List.length h2
    rw [List.length_append] at h3
    have e1 : ("could not convert string to float: " : String).data.length = 35 := by decide
    have e2 : ("sku and key are required" : String).data.length = 24 := by decide
    rw [e1, e2] at h3
    omega
  · intro h
    have h2 := congrArg String.data h
    rw [String.data_append] at h2
    have h3 := congrArg List.length h2
    rw [List.length_append] at h3
    have e1 : ("could not convert string to float: " : String).data.length = 35 := by decide
    have e2 : ("price is required" : String).data.length = 17 := by decide
    rw [e1, e2] at h3
    omega

/-- Evaluation of `normalize_row` on the payload the PUT handler builds
when the body carries only a numeric price. -/
theorem normalize_row_put_payload (sku key : String) (q : ℚ)
    (hs : strTrim sku = sku) (hs0 : sku ≠ "") (hk : strTrim key = key) (hk0 : key ≠ "") :
    normalize_row (rowSet (rowSet [("price", vNum q)] "sku" (vStr sku)) "key" (vStr key))
      = .ok { sku := sku, key := key, price := q, isActive := true } := by
  have hrow : rowSet (rowSet [("price", vNum q)] "sku" (vStr sku)) "key" (vStr key)
      = [("price", vNum q), ("sku", vStr sku), ("key", vStr key)] := by
    simp [rowSet]
  rw [hrow]
  have hsku : rowGet [("price", vNum q), ("sku", vStr sku), ("key", vStr key)] "sku" (vStr "")
      = vStr sku := by simp [rowGet, List.lookup]
  have hkey : rowGet [("price", vNum q), ("sku", vStr sku), ("key", vStr key)] "key" (vStr "")
      = vStr key := by simp [rowGet, List.lookup]
  have hprice : rowGet [("price", vNum q), ("sku", vStr sku), ("key", vStr key)] "price" vNull
      = vNum q := by simp [rowGet, List.lookup]
  have hact : rowGet [("price", vNum q), ("sku", vStr sku), ("key", vStr key)] "isActive"
      (vBool true) = vBool true := by simp [rowGet, List.lookup]
  have h1 : ¬ skuKeyMissing [("price", vNum q), ("sku", vStr sku), ("key", vStr key)] := by
    unfold skuKeyMissing
    rw [hsku, hkey]
    simp only [pyStr]
    rw [hs, hk]
    simp [hs0, hk0]
  have h2 : ¬ priceMissing [("price", vNum q), ("sku", vStr sku), ("key", vStr key)] := by
    unfold priceMissing
    rw [hprice]
    simp only [pyStr]
    rw [strTrim_numRepr]
    simp [numRepr_ne_empty]
  have h3 : pyFloat (rowGet [("price", vNum q), ("sku", vStr sku), ("key", vStr key)]
      "price" vNull) = some q := by rw [hprice]; rfl
  rw [normalize_row_of_float_some h1 h2 h3, hsku, hkey, hact]
  simp only [pyStr, normalize_bool]
  rw [hs, hk]

/-- Evaluation of the PUT handler on a numeric-price body with canonical
path segments. -/
theorem upsert_price_eval (sku key : String) (q : ℚ) (st : Store)
    (hs : strTrim sku = sku) (hs0 : sku ≠ "") (hk : strTrim key = key) (hk0 : key ≠ "") :
    upsert_price sku key [("price", vNum q)] st
      = (.ok (make_id sku key) { sku := sku, key := key, price := q, isActive := true },
         insertOrReplace (make_id sku key)
           { sku := sku, key := key, price := q, isActive := true } st) := by
  simp only [upsert_price]
  rw [normalize_row_put_payload sku key q hs hs0 hk hk0]

/-! ### Evaluation lemmas for the reset transaction -/

theorem reset_apply_error_of_bad : ∀ (items : List RawRow) (tx : Store),
    (∃ i ∈ items, ∃ e, normalize_row i = .error e) →
    ∃ e, reset_apply items tx = .error e := by
  intro items
  induction items with
  | nil => intro tx h; simp at h
  | cons i rest ih =>
    intro tx h
    rcases h with ⟨i0, hmem, e0, he0⟩
    rcases List.mem_cons.mp hmem with rfl | hmem2
    · exact ⟨e0, by rw [reset_apply, he0]⟩
    · cases hn : normalize_row i with
      | error e => exact ⟨e, by rw [reset_apply, hn]⟩
      | ok d =>
        rcases ih _ ⟨i0, hmem2, e0, he0⟩ with ⟨e, he⟩
        exact ⟨e, by rw [reset_apply, hn]; exact he⟩

theorem reset_apply_ok_of_all : ∀ (items : List RawRow) (tx : Store),
    (∀ i ∈ items, ∃ d, normalize_row i = .ok d) →
    ∃ tx2, reset_apply items tx = .ok tx2 := by
  intro items
  induction items with
  | nil => intro tx _; exact ⟨tx, rfl⟩
  | cons i rest ih =>
    intro tx h
    rcases h i (List.mem_cons_self _ _) with ⟨d, hd⟩
    rcases ih (insertOrReplace (make_id d.sku d.key) d tx)
      (fun j hj => h j (List.mem_cons_of_mem _ hj)) with ⟨tx2, htx2⟩
    exact ⟨tx2, by rw [reset_apply, hd]; exact htx2⟩

theorem reset_prices_rollback {items : List RawRow} {st : Store}
    (h : ∃ i ∈ items, ∃ e, normalize_row i = .error e) :
    (reset_prices items st).2 = st := by
  rcases reset_apply_error_of_bad items [] h with ⟨e, he⟩
  simp [reset_prices, he]

/-! ### Concrete rows used by witnesses and counterexamples -/

/-- A raw row whose `sku` is whitespace-only, so normalization fails. -/
def badSkuRow : RawRow := [("sku", vStr " "), ("key", vStr "k"), ("price", vNum 1)]

/-- Two raw rows sharing the same `(sku, key)` pair with different prices. -/
def dupItems : List RawRow :=
  [[("sku", vStr "A"), ("key", vStr "k"), ("price", vNum 1)],
   [("sku", vStr "A"), ("key", vStr "k"), ("price", vNum 2)]]

/-- A one-record store used as the prior state in witnesses. -/
def priorStore : Store :=
  [("B::k", { sku := "B", key := "k", price := 3, isActive := true })]

/-! ### The claims -/

/-- C1: `reset_prices` is all-or-nothing.  If any element of the input
sequence fails normalization, the store after the call is exactly the
store before it: the uncommitted transaction (including the initial
DELETE) is rolled back when the connection is closed in `finally`, so no
element of the call is persisted and no previously stored record is
lost. -/
theorem reset_all_or_nothing (items : List RawRow) (st : Store)
    (h : ∃ i ∈ items, ∃ e, normalize_row i = .error e) :
    (reset_prices items st).2 = st :=
  reset_prices_rollback h

/-- Witness for C1 at a concrete failing input over a non-empty prior store. -/
theorem reset_all_or_nothing_witness : (reset_prices [badSkuRow] priorStore).2 = priorStore :=
  reset_all_or_nothing [badSkuRow] priorStore
    ⟨badSkuRow, List.mem_cons_self _ _, "sku and key are required", by decide⟩

/-- C3 counterexample: a reset whose body contains an element failing
normalization answers with HTTP status 500, not the claimed 400 — the
handler `reset_prices` has no `try/except ValueError`, so the
`ValueError` escapes to the framework as an internal server error. -/
theorem reset_validation_not_400 :
    ((reset_prices [badSkuRow] []).1).status = 500 ∧ ((reset_prices [badSkuRow] []).1).status ≠ 400 := by
  constructor <;> decide

/-- C3 (amended): for every reset request with an element that fails
normalization, the response is a 500 internal server error (the
validation failure propagates uncaught out of the reset handler, unlike
the PUT handler which maps it to 400). -/
theorem reset_validation_is_500 (items : List RawRow) (st : Store)
    (h : ∃ i ∈ items, ∃ e, normalize_row i = .error e) :
    ((reset_prices items st).1).status = 500 := by
  rcases reset_apply_error_of_bad items [] h with ⟨e, he⟩
  simp [reset_prices, he, ResetResp.status]

/-- Witness for the amended C3 at a concrete failing input. -/
theorem reset_validation_is_500_witness : ((reset_prices [badSkuRow] []).1).status = 500 :=
  reset_validation_is_500 [badSkuRow] []
    ⟨badSkuRow, List.mem_cons_self _ _, "sku and key are required", by decide⟩

/-- C4 counterexample: on an input of two elements sharing the same
`(sku, key)` pair, `reset_prices` returns count 2 while only 1 distinct
record is stored, so the returned count is not the number of distinct
stored records. -/
theorem reset_count_not_distinct :
    (reset_prices dupItems []).1 = .ok 2 ∧ ((reset_prices dupItems []).2).length = 1 := by
  constructor <;> decide

/-- C4 (amended): for every input sequence whose elements all normalize
successfully, `reset_prices` returns `len(items)`, the length of the
input sequence — which can exceed the number of distinct stored records
when two elements share a `(sku, key)` pair. -/
theorem reset_count_is_input_length (items : List RawRow) (st : Store)
    (h : ∀ i ∈ items, ∃ d, normalize_row i = .ok d) :
    (reset_prices items st).1 = .ok items.length := by
  rcases reset_apply_ok_of_all items [] h with ⟨tx, htx⟩
  simp [reset_prices, htx]

/-- Witness for the amended C4 at the duplicate-pair input. -/
theorem reset_count_is_input_length_witness : (reset_prices dupItems []).1 = .ok dupItems.length :=
  reset_count_is_input_length dupItems [] (by
    intro i hi
    rcases List.mem_cons.mp hi with rfl | hi2
    · exact ⟨{ sku := "A", key := "k", price := 1, isActive := true }, by decide⟩
    · rcases List.mem_cons.mp hi2 with rfl | hi3
      · exact ⟨{ sku := "A", key := "k", price := 2, isActive := true }, by decide⟩
      · simp at hi3)

/-- C5: `list_prices` leaves the store untouched, returns exactly the
decoded stored records (a permutation of the store's contents), and its
output is sorted ascending by the `(sku, key)` pair under lexicographic
string order, regardless of insertion order. -/
theorem list_prices_sorted_complete (st : Store) :
    (list_prices st).2 = st ∧
    ((list_prices st).1).Perm (st.map Prod.snd) ∧
    ((list_prices st).1).Pairwise (fun a b => recLe a b = true) :=
  ⟨rfl, List.mergeSort_perm _ _,
    List.sorted_mergeSort (fun a b c => recLe_trans a b c) recLe_total _⟩

/-- C2: for a valid canonical `(sku, key, price)` input over a
well-formed store, `upsert_price` then `list_prices` yields exactly one
record with that `(sku, key)`, and its price is exactly the input price
(the JSON round-trip is exact). -/
theorem upsert_then_list_exactly_one (st : Store) (sku key : String) (q : ℚ)
    (hwf : WF st) (hs : strTrim sku = sku) (hs0 : sku ≠ "")
    (hk : strTrim key = key) (hk0 : key ≠ "") :
    ((list_prices (upsert_price sku key [("price", vNum q)] st).2).1).filter
        (fun r => r.sku == sku && r.key == key)
      = [{ sku := sku, key := key, price := q, isActive := true }] := by
  rw [upsert_price_eval sku key q st hs hs0 hk hk0]
  simp only [list_prices]
  have hfil : ((insertOrReplace (make_id sku key)
      { sku := sku, key := key, price := q, isActive := true } st).map Prod.snd).filter
      (fun r => r.sku == sku && r.key == key)
      = [{ sku := sku, key := key, price := q, isActive := true }] :=
    filter_insertOrReplace st { sku := sku, key := key, price := q, isActive := true }
      hwf.1 hwf.2
  have hperm := (List.mergeSort_perm ((insertOrReplace (make_id sku key)
      { sku := sku, key := key, price := q, isActive := true } st).map Prod.snd)
      recLe).filter (fun r => r.sku == sku && r.key == key)
  rw [hfil] at hperm
  exact List.perm_singleton.mp hperm

/-- Witness for C2 at a concrete input over the empty store. -/
theorem upsert_then_list_exactly_one_witness :
    ((list_prices (upsert_price "ABC" "retail" [("price", vNum (mkRat 199 10))] []).2).1).filter
        (fun r => r.sku == "ABC" && r.key == "retail")
      = [{ sku := "ABC", key := "retail", price := mkRat 199 10, isActive := true }] :=
  upsert_then_list_exactly_one [] "ABC" "retail" (mkRat 199 10)
    ⟨by simp, by simp⟩ (by decide) (by decide) (by decide) (by decide)

/-- C6: upserting the same `(sku, key)` twice with different prices
leaves exactly one stored record for that pair, and it is entirely the
second upsert's record (no field-level merge). -/
theorem upsert_replaces_prior (st : Store) (sku key : String) (q1 q2 : ℚ)
    (hwf : WF st) (hs : strTrim sku = sku) (hs0 : sku ≠ "")
    (hk : strTrim key = key) (hk0 : key ≠ "") (_hne : q1 ≠ q2) :
    (((upsert_price sku key [("price", vNum q2)]
          (upsert_price sku key [("price", vNum q1)] st).2).2).map Prod.snd).filter
        (fun r => r.sku == sku && r.key == key)
      = [{ sku := sku, key := key, price := q2, isActive := true }] := by
  rw [upsert_price_eval sku key q1 st hs hs0 hk hk0]
  rw [upsert_price_eval sku key q2 _ hs hs0 hk hk0]
  have hwf1 : WF (insertOrReplace (make_id sku key)
      { sku := sku, key := key, price := q1, isActive := true } st) :=
    WF_insertOrReplace (d := { sku := sku, key := key, price := q1, isActive := true }) hwf
  exact filter_insertOrReplace _ { sku := sku, key := key, price := q2, isActive := true }
    hwf1.1 hwf1.2

/-- Witness for C6 at a concrete input over the empty store. -/
theorem upsert_replaces_prior_witness :
    (((upsert_price "A" "k" [("price", vNum 2)]
          (upsert_price "A" "k" [("price", vNum 1)] []).2).2).map Prod.snd).filter
        (fun r => r.sku == "A" && r.key == "k")
      = [{ sku := "A", key := "k", price := 2, isActive := true }] :=
  upsert_replaces_prior [] "A" "k" 1 2 ⟨by simp, by simp⟩
    (by decide) (by decide) (by decide) (by decide) (by decide)

/-- C10: `upsert_price` frames every other entry — a stored row whose id
differs from `make_id sku key` is unchanged by the call (whether the
call succeeds or fails validation). -/
theorem upsert_frames_other_ids (st : Store) (sku key : String) (payload : RawRow)
    (id2 : String) (h : id2 ≠ make_id sku key) :
    List.lookup id2 (upsert_price sku key payload st).2 = List.lookup id2 st := by
  simp only [upsert_price]
  split
  · rfl
  · exact lookup_insertOrReplace_ne st _ h

/-- Witness for C10: a prior record under a different id survives an
upsert byte for byte. -/
theorem upsert_frames_other_ids_witness :
    List.lookup "B::k"
        (upsert_price "ABC" "retail" [("price", vNum (mkRat 199 10))] priorStore).2
      = List.lookup "B::k" priorStore :=
  upsert_frames_other_ids priorStore "ABC" "retail" [("price", vNum (mkRat 199 10))]
    "B::k" (by decide)

/-- C7: characterization of `normalize_row` failures.  The sku/key
message appears exactly when `sku` or `key` is empty after string
coercion and trim; given non-empty sku/key, the price message appears
exactly when `price` is absent, `None`, or empty after string-trim;
given both checks pass, normalization fails exactly when the float parse
fails (same `ValueError` kind); and on any normalization failure neither
the PUT nor the reset handler mutates the store. -/
theorem normalize_row_validation :
    (∀ row : RawRow,
        normalize_row row = .error "sku and key are required" ↔ skuKeyMissing row)
    ∧ (∀ row : RawRow, ¬ skuKeyMissing row →
        (normalize_row row = .error "price is required" ↔ priceMissing row))
    ∧ (∀ row : RawRow, ¬ skuKeyMissing row → ¬ priceMissing row →
        ((∃ e, normalize_row row = .error e) ↔ pyFloat (rowGet row "price" vNull) = none))
    ∧ (∀ (sku key : String) (payload : RawRow) (st : Store) (e : String),
        normalize_row (rowSet (rowSet payload "sku" (vStr sku)) "key" (vStr key)) = .error e →
        (upsert_price sku key payload st).2 = st)
    ∧ (∀ (items : List RawRow) (st : Store),
        (∃ i ∈ items, ∃ e, normalize_row i = .error e) →
        (reset_prices items st).2 = st) := by
  refine ⟨?_, ?_, ?_, ?_, ?_⟩
  · intro row
    constructor
    · intro h
      by_cases h1 : skuKeyMissing row
      · exact h1
      exfalso
      by_cases h2 : priceMissing row
      · rw [normalize_row_of_priceMissing h1 h2] at h
        exact absurd h (by decide)
      cases h3 : pyFloat (rowGet row "price" vNull) with
      | none =>
        rw [normalize_row_of_float_none h1 h2 h3] at h
        injection h with h
        exact (float_msg_ne _).1 h
      | some p =>
        rw [normalize_row_of_float_some h1 h2 h3] at h
        exact absurd h (by simp)
    · exact normalize_row_of_skuKeyMissing
  · intro row h1
    constructor
    · intro h
      by_cases h2 : priceMissing row
      · exact h2
      exfalso
      cases h3 : pyFloat (rowGet row "price" vNull) with
      | none =>
        rw [normalize_row_of_float_none h1 h2 h3] at h
        injection h with h
        exact (float_msg_ne _).2 h
      | some p =>
        rw [normalize_row_of_float_some h1 h2 h3] at h
        exact absurd h (by simp)
    · exact normalize_row_of_priceMissing h1
  · intro row h1 h2
    constructor
    · rintro ⟨e, he⟩
      cases h3 : pyFloat (rowGet row "price" vNull) with
      | none => rfl
      | some p =>
        rw [normalize_row_of_float_some h1 h2 h3] at he
        exact absurd he (by simp)
    · intro h3
      exact ⟨_, normalize_row_of_float_none h1 h2 h3⟩
  · intro sku key payload st e he
    simp only [upsert_price, he]
  · intro items st h
    exact reset_prices_rollback h

/-- Witness for C7: a concrete row with sku and key but no price fails
with the price message. -/
theorem normalize_row_validation_witness :
    normalize_row [("sku", vStr "A"), ("key", vStr "k")] = .error "price is required" :=
  (normalize_row_validation.2.1 [("sku", vStr "A"), ("key", vStr "k")] (by decide)).mpr
    (by decide)

/-- C8: boolean normalization of `isActive` is total: a boolean passes
through unchanged; an absent `isActive` makes the normalized record
active (the `True` default); any non-boolean value maps to true exactly
when its trimmed lowercased string form is in the truthy set; and the
spec's concrete examples evaluate accordingly. -/
theorem normalize_bool_total_truthy :
    (∀ b : Bool, normalize_bool (vBool b) = b)
    ∧ (∀ (row : RawRow) (d : PriceRec), List.lookup "isActive" row = none →
        normalize_row row = .ok d → d.isActive = true)
    ∧ (∀ v : Val, (∀ b : Bool, v ≠ vBool b) →
        normalize_bool v
          = ["true", "1", "yes", "y", "sim"].contains (strLower (strTrim (pyStr v))))
    ∧ (normalize_bool (vStr "Yes") = true ∧ normalize_bool (vStr "SIM") = true
        ∧ normalize_bool (vStr "1") = true ∧ normalize_bool (vBool true) = true
        ∧ normalize_bool (vStr "no") = false ∧ normalize_bool (vStr "") = false
        ∧ normalize_bool (vStr "0") = false) := by
  refine ⟨?_, ?_, ?_, by decide⟩
  · intro b; rfl
  · intro row d hnone hok
    have hact := (normalize_row_ok_inv hok).2.2.2
    rw [hact]
    simp [rowGet, hnone, normalize_bool]
  · intro v hv
    cases v with
    | vStr s => rfl
    | vNum q => rfl
    | vBool b => exact absurd rfl (hv b)
    | vNull => decide

/-- Witness for C8: a row without `isActive` normalizes to an active
record. -/
theorem normalize_bool_total_truthy_witness :
    ({ sku := "A", key := "k", price := 1, isActive := true } : PriceRec).isActive = true :=
  normalize_bool_total_truthy.2.1 [("sku", vStr "A"), ("key", vStr "k"), ("price", vNum 1)]
    { sku := "A", key := "k", price := 1, isActive := true } (by decide) (by decide)

/-- C9: the PUT path segments are authoritative — same-named fields in
the body never change the handler's result; on success the returned id
is `sku ++ "::" ++ key` and the returned record carries the path's
(trimmed) sku and key; and the spec's end-to-end example evaluates
exactly as claimed (price 19.9, isActive true). -/
theorem upsert_path_authoritative :
    (∀ (sku key : String) (v w : Val) (payload : RawRow) (st : Store),
        upsert_price sku key (rowSet (rowSet payload "sku" v) "key" w) st
          = upsert_price sku key payload st)
    ∧ (∀ (sku key : String) (payload : RawRow) (st : Store) (pid : String)
        (data : PriceRec) (st2 : Store),
        upsert_price sku key payload st = (.ok pid data, st2) →
        pid = sku ++ "::" ++ key ∧ data.sku = strTrim sku ∧ data.key = strTrim key)
    ∧ (upsert_price "ABC" "retail" [("price", vNum (mkRat 199 10))] []
        = (.ok "ABC::retail"
             { sku := "ABC", key := "retail", price := mkRat 199 10, isActive := true },
           [("ABC::retail",
             { sku := "ABC", key := "retail", price := mkRat 199 10, isActive := true })])) := by
  refine ⟨?_, ?_, by decide⟩
  · intro sku key v w payload st
    have hnorm : normalize_row
        (rowSet (rowSet (rowSet (rowSet payload "sku" v) "key" w) "sku" (vStr sku))
          "key" (vStr key))
        = normalize_row (rowSet (rowSet payload "sku" (vStr sku)) "key" (vStr key)) := by
      apply normalize_row_ext
      intro k0 d
      by_cases hkey : k0 = "key"
      · subst hkey
        rw [rowGet_rowSet_self, rowGet_rowSet_self]
      · rw [rowGet_rowSet_ne _ _ _ hkey, rowGet_rowSet_ne _ _ _ hkey]
        by_cases hsku : k0 = "sku"
        · subst hsku
          rw [rowGet_rowSet_self, rowGet_rowSet_self]
        · rw [rowGet_rowSet_ne _ _ _ hsku, rowGet_rowSet_ne _ _ _ hkey,
            rowGet_rowSet_ne _ _ _ hsku, rowGet_rowSet_ne _ _ _ hsku]
    simp only [upsert_price]
    rw [hnorm]
  · intro sku key payload st pid data st2 h
    simp only [upsert_price] at h
    cases hn : normalize_row (rowSet (rowSet payload "sku" (vStr sku)) "key" (vStr key)) with
    | error e => rw [hn] at h; exact absurd h (by simp)
    | ok d0 =>
      rw [hn] at h
      have hinv := normalize_row_ok_inv hn
      have hsku0 : rowGet (rowSet (rowSet payload "sku" (vStr sku)) "key" (vStr key))
          "sku" (vStr "") = vStr sku := by
        rw [rowGet_rowSet_ne _ _ _ (by decide : ("sku" : String) ≠ "key"), rowGet_rowSet_self]
      have hkey0 : rowGet (rowSet (rowSet payload "sku" (vStr sku)) "key" (vStr key))
          "key" (vStr "") = vStr key := by
        rw [rowGet_rowSet_self]
      simp only [Prod.mk.injEq, UpsertResp.ok.injEq] at h
      refine ⟨h.1.1.symm, ?_, ?_⟩
      · rw [← h.1.2, hinv.1, hsku0]; rfl
      · rw [← h.1.2, hinv.2.1, hkey0]; rfl

/-- Witness for C9: the success implication applied at the spec's
end-to-end example. -/
theorem upsert_path_authoritative_witness :
    ("ABC::retail" : String) = "ABC" ++ "::" ++ "retail"
    ∧ ({ sku := "ABC", key := "retail", price := mkRat 199 10, isActive := true } : PriceRec).sku
        = strTrim "ABC"
    ∧ ({ sku := "ABC", key := "retail", price := mkRat 199 10, isActive := true } : PriceRec).key
        = strTrim "retail" :=
  upsert_path_authoritative.2.1 "ABC" "retail" [("price", vNum (mkRat 199 10))] []
    "ABC::retail" { sku := "ABC", key := "retail", price := mkRat 199 10, isActive := true }
    [("ABC::retail", { sku := "ABC", key := "retail", price := mkRat 199 10, isActive := true })]
    (by decide)
